import Mathlib

/-!
# Verification of the craftassist task-execution core (`tasks.py`)

This file shallowly embeds the task classes of
`src/python/craftassist/tasks.py` — `Task`, `Move`, `Build`, `Fill`,
`Destroy`, `Dig`, `Loop` and the flag behaviour of the remaining variants —
and proves properties of the embedded code.

Conventions:
* block types (`idm[0]`) are `Nat`; the diff computation in `Build.step`
  compares only block types (the code explicitly ignores block meta);
* world coordinates are `Int` triples `(x, y, z)`;
* schematic grid cells are `Nat` triples in the numpy `(y, z, x)` index
  order used throughout `tasks.py`;
* external collaborators (the pathfinder `search.astar`, the world reads
  `agent.get_blocks`, `agent.place_block` success, the module constants of
  `block_data`) are parameters of the embedded functions.
-/

namespace Craftassist

/-- A world coordinate `(x, y, z)`, as used for agent positions and block
coordinates in `tasks.py`. -/
structure Vec3 where
  x : Int
  y : Int
  z : Int
deriving DecidableEq, Repr

/-- A schematic grid index in numpy `(y, z, x)` order, as used for
`self.schematic`, `self.attempts` and the diff mask in `Build`. -/
structure Cell where
  y : Nat
  z : Nat
  x : Nat
deriving DecidableEq, Repr

/-- `util.manhat_dist` on world coordinates: sum of absolute coordinate
differences. -/
def manhatDist (a b : Vec3) : Nat :=
  (a.x - b.x).natAbs + (a.y - b.y).natAbs + (a.z - b.z).natAbs

/-- Manhattan distance between a grid cell and an `Int`-valued `(y, z, x)`
triple (the relative agent position `relpos_yzx` in `Build.get_next_target`). -/
def manhatDistYzx (c : Cell) (p : Int × Int × Int) : Nat :=
  ((c.y : Int) - p.1).natAbs + ((c.z : Int) - p.2.1).natAbs +
    ((c.x : Int) - p.2.2).natAbs

/-! ## Stable sorting by an integer key

Python's `list.sort(key=...)` is a stable sort.  `Build.get_next_target`
applies four of them in sequence.  We model one stable sort by an `Int`
key with insertion sort: an element is inserted strictly before the first
element whose key is `≥` its own, which preserves the relative order of
key-equal elements. -/

/-- Insert `a` into `l` before the first element whose key is not smaller
than `a`'s key. -/
def insertByKey (k : α → Int) (a : α) : List α → List α
  | [] => [a]
  | b :: l => if k a ≤ k b then a :: b :: l else b :: insertByKey k a l

/-- Stable insertion sort by the key `k`, ascending. -/
def sortByKey (k : α → Int) : List α → List α
  | [] => []
  | a :: l => insertByKey k a (sortByKey k l)

/-- Lexicographic comparison along a list of keys: `lexLeB [] a b = true`,
and `k :: ks` compares by `k` first, breaking ties with `ks`. -/
def lexLeB {α : Type u} : List (α → Int) → α → α → Bool
  | [], _, _ => true
  | k :: ks, a, b => decide (k a < k b) || (k a == k b && lexLeB ks a b)

/-- `SortedLex ks l`: `l` is pairwise ordered by the lexicographic
comparison along `ks`. -/
def SortedLex (ks : List (α → Int)) (l : List α) : Prop :=
  l.Pairwise (fun a b => lexLeB ks a b = true)

/-! ## The `Build` task

`Build.__init__` stores the dense schematic (shape `(sy, sz, sx)` in
`(y, z, x)` index order), the world `origin`, the `embed` flag, and the
per-cell `attempts` grid `3 * np.ones(..., dtype=np.uint8)`.  The module
constants imported from `block_data` and the success of external calls
are parameters. -/

/-- Modelled from the spec: the `block_data` module constants imported by
`tasks.py` (`block_data` is not under `src/`).  `ignore` is
`BUILD_IGNORE_BLOCKS` (the ignore set), `pairs` is
`BUILD_INTERCHANGEABLE_PAIRS` (declared interchangeable block-type pairs),
`passable` is `PASSABLE_BLOCKS` (open/passable block types). -/
structure BlockData where
  ignore : List Nat
  pairs : List (Nat × Nat)
  passable : List Nat

/-- The mutable state of a `Build` task that the claims are about.  Grids
are functions from `(y, z, x)` cells; only block types are tracked, since
the diff in `Build.step` explicitly ignores block meta. -/
structure BuildTask where
  sy : Nat
  sz : Nat
  sx : Nat
  schematic : Cell → Nat
  attempts : Cell → Nat
  embed : Bool
  origin : Vec3
  oldBlocksList : Option (List (Vec3 × Nat))
  oldOrigin : Option Vec3
  newBlocks : List (Vec3 × Nat)
  givingUpMessageSent : Bool
  finished : Bool
  interrupted : Bool

/-- All grid cells of a `(sy, sz, sx)`-shaped schematic, in numpy C order
(`y` outermost, `x` innermost) — the enumeration order of `np.argwhere`. -/
def cellsOf (sy sz sx : Nat) : List Cell :=
  (List.range sy).flatMap fun y =>
    (List.range sz).flatMap fun z =>
      (List.range sx).map fun x => ⟨y, z, x⟩

/-- `np.isin(v, pair)` for a declared interchangeable pair. -/
def inPair (p : Nat × Nat) (v : Nat) : Bool :=
  decide (v = p.1 ∨ v = p.2)

/-- One cell of the boolean diff mask computed at the top of `Build.step`:
`current != schematic` and `attempts > 0` and `current not in
BUILD_IGNORE_BLOCKS`, excluding (when `embed`) cells whose schematic type
is 0, and excluding cells where current and schematic types fall in one
declared interchangeable pair. -/
def diffCell (bd : BlockData) (bt : BuildTask) (current : Cell → Nat)
    (c : Cell) : Bool :=
  decide (current c ≠ bt.schematic c) && decide (0 < bt.attempts c) &&
    !(decide (current c ∈ bd.ignore)) &&
    (!bt.embed || decide (bt.schematic c ≠ 0)) &&
    bd.pairs.all fun p => !(inPair p (current c)) || !(inPair p (bt.schematic c))

/-- The masked cells `np.argwhere(diff)`, in C order. -/
def diffCells (bd : BlockData) (bt : BuildTask) (current : Cell → Nat) :
    List Cell :=
  (cellsOf bt.sy bt.sz bt.sx).filter (diffCell bd bt current)

/-- `relpos_yzx = (agent.pos - self.origin)[[1, 2, 0]]` in
`Build.get_next_target`. -/
def relposYzx (agentPos origin : Vec3) : Int × Int × Int :=
  (agentPos.y - origin.y, agentPos.z - origin.z, agentPos.x - origin.x)

/-- A grid cell as an `Int`-valued `(y, z, x)` triple. -/
def cellI (c : Cell) : Int × Int × Int :=
  ((c.y : Int), (c.z : Int), (c.x : Int))

/-- Sort key 4 of `get_next_target`: Manhattan distance to the agent. -/
def distKey (rel : Int × Int × Int) (c : Cell) : Int :=
  (manhatDistYzx c rel : Int)

/-- Sort key 3 of `get_next_target`: `-self.attempts[yzx]`. -/
def negAttemptsKey (bt : BuildTask) (c : Cell) : Int :=
  -(bt.attempts c : Int)

/-- Sort key 2 of `get_next_target`: the cell's `y` index. -/
def yKey (c : Cell) : Int :=
  (c.y : Int)

/-- Sort key 1 of `get_next_target`: whether the cell is the agent's own
foot or head position (`tuple(yzx) in (tuple(relpos_yzx),
tuple(relpos_yzx + [1, 0, 0]))`); Python sorts `False` before `True`. -/
def selfOccKey (rel : Int × Int × Int) (c : Cell) : Int :=
  if cellI c = rel ∨ cellI c = (rel.1 + 1, rel.2.1, rel.2.2) then 1 else 0

/-- `Build.get_next_target`: four stable sorts applied in sequence —
by distance, then by negated attempts, then by `y`, then by
self-occupancy — and the first element of the result. -/
def getNextTarget (bt : BuildTask) (agentPos : Vec3) (ds : List Cell) :
    Option Cell :=
  let rel := relposYzx agentPos bt.origin
  (sortByKey (selfOccKey rel)
    (sortByKey yKey
      (sortByKey (negAttemptsKey bt)
        (sortByKey (distKey rel) ds)))).head?

/-- `Build.PLACE_REACH`. -/
def PLACE_REACH : Nat := 3

/-- `target = yzx[[2, 0, 1]] + self.origin`: the world coordinate of a
grid cell. -/
def cellTarget (bt : BuildTask) (c : Cell) : Vec3 :=
  ⟨bt.origin.x + c.x, bt.origin.y + c.y, bt.origin.z + c.z⟩

/-- What a single `Build.step` call does after the diff is computed. -/
inductive BuildOutcome where
  | finish
  | pushDestroy (cells : List Cell)
  | stepAside
  | placeAt (c : Cell)
  | pushMove (c : Cell)
deriving DecidableEq, Repr

/-- The control flow of `Build.step`: finish when the diff mask is
all-false; else push a `Destroy` over the non-air masked cells if any;
else pick a target; step aside if it is under the agent's feet or head;
place if within `PLACE_REACH`; else push a `Move`.  (The `none` branch of
the target lookup is unreachable: `ds` is non-empty there, and
`getNextTarget` of a non-empty list returns `some`.) -/
def buildStepOutcome (bd : BlockData) (bt : BuildTask) (current : Cell → Nat)
    (agentPos : Vec3) : BuildOutcome :=
  let ds := diffCells bd bt current
  if ds.isEmpty then .finish
  else
    let removes := ds.filter fun c => decide (current c ≠ 0)
    if !removes.isEmpty then .pushDestroy removes
    else
      match getNextTarget bt agentPos ds with
      | none => .finish
      | some yzx =>
        let target := cellTarget bt yzx
        if target = agentPos ∨ target = ⟨agentPos.x, agentPos.y + 1, agentPos.z⟩ then
          .stepAside
        else if manhatDist agentPos target ≤ PLACE_REACH then
          .placeAt yzx
        else
          .pushMove yzx

/-- Modelled from the spec: `npy_to_blocks_list` from `build_utils` (not
under `src/`) converts the dense grid back to the sparse interchange
format — the (world coordinate, block type) pairs of the non-air cells,
in grid order. -/
def npyToBlocksList (sy sz sx : Nat) (g : Cell → Nat) (origin : Vec3) :
    List (Vec3 × Nat) :=
  ((cellsOf sy sz sx).filter fun c => decide (g c ≠ 0)).map fun c =>
    (⟨origin.x + c.x, origin.y + c.y, origin.z + c.z⟩, g c)

/-- `np.min(coords, axis=0)`: the componentwise minimum of a list of
world coordinates (used for `old_origin` in `Build.step` and for the
origin in `Fill.step`; numpy rejects an empty list, and every caller
guards non-emptiness). -/
def minCorner : List Vec3 → Vec3
  | [] => ⟨0, 0, 0⟩
  | v :: vs => vs.foldl (fun a b => ⟨min a.x b.x, min a.y b.y, min a.z b.z⟩) v

/-- Decrementing one cell of the `np.uint8` attempts grid: `0 - 1` wraps
to `255`. -/
def uint8Dec (n : Nat) : Nat :=
  if n = 0 then 255 else n - 1

/-- `Build.__init__` initializes the attempts grid to
`3 * np.ones(self.schematic.shape[:3], dtype=np.uint8)`. -/
def buildInitAttempts : Cell → Nat :=
  fun _ => 3

/-- The per-step observations `Build.step` makes of its collaborators:
the world read `agent.get_blocks` over the schematic's bounding region
(block types, `(y, z, x)`-indexed), the agent position, and whether
`agent.place_block` reports success at the chosen target. -/
structure BuildObs where
  current : Cell → Nat
  agentPos : Vec3
  placeOk : Bool

/-- The state update a single `Build.step` call performs: clear
`interrupted`, lazily take the undo snapshot, then — following
`buildStepOutcome` — set `finished` on the finish branch, or on the place
branch append to `new_blocks` when a real block was placed successfully,
decrement the chosen cell's attempts, and latch the one-time giving-up
message flag when that cell's counter reaches 0. -/
def buildStep (bd : BlockData) (bt : BuildTask) (obs : BuildObs) : BuildTask :=
  let snap := bt.oldBlocksList.getD
    (npyToBlocksList bt.sy bt.sz bt.sx obs.current bt.origin)
  let bt1 : BuildTask :=
    { bt with
      interrupted := false
      oldBlocksList := some snap
      oldOrigin := if bt.oldBlocksList = none then
          (if snap.length > 0 then some (minCorner (snap.map Prod.fst)) else none)
        else bt.oldOrigin }
  -- the diff and target read only fields the bookkeeping above leaves unchanged
  match buildStepOutcome bd bt obs.current obs.agentPos with
  | .finish => { bt1 with finished := true }
  | .placeAt c =>
    let bt2 : BuildTask :=
      if bt1.schematic c ≠ 0 ∧ obs.placeOk = true then
        { bt1 with newBlocks := bt1.newBlocks ++ [(cellTarget bt1 c, bt1.schematic c)] }
      else bt1
    let bt3 : BuildTask :=
      { bt2 with attempts := fun c' => if c' = c then uint8Dec (bt2.attempts c') else bt2.attempts c' }
    if bt3.attempts c = 0 ∧ bt3.givingUpMessageSent = false then
      { bt3 with givingUpMessageSent := true }
    else bt3
  | _ => bt1

/-- The grid cells at which a single `Build.step` call removes existing
world blocks: the non-air masked cells handed to the pushed `Destroy`
child, or the single differing non-air cell dug before placing. -/
def buildStepDigCells (bd : BlockData) (bt : BuildTask) (current : Cell → Nat)
    (agentPos : Vec3) : List Cell :=
  match buildStepOutcome bd bt current agentPos with
  | .pushDestroy cs => cs
  | .placeAt c => if current c ≠ 0 then [c] else []
  | _ => []

/-- A sequence of `Build.step` calls, each under its own observations. -/
def buildSteps (bd : BlockData) (bt : BuildTask) : List BuildObs → BuildTask
  | [] => bt
  | o :: os => buildSteps bd (buildStep bd bt o) os

/-- The children `Build.undo` pushes. -/
inductive UndoChild where
  | buildOld (blocksList : List (Vec3 × Nat)) (origin : Option Vec3)
  | destroyNew (blocks : List (Vec3 × Nat))
deriving DecidableEq, Repr

/-- `Build.undo`: announce, push a forced `Build` of the undo snapshot
when it is non-empty, then a `Destroy` of the newly placed blocks when
there are any.  Before the first step `self.old_blocks_list` is `None`
and `len(self.old_blocks_list)` raises `TypeError`, modelled by `none`. -/
def buildUndo (bt : BuildTask) : Option (List UndoChild) :=
  match bt.oldBlocksList with
  | none => none
  | some obl =>
    some ((if obl.length > 0 then [UndoChild.buildOld obl bt.oldOrigin] else []) ++
      (if bt.newBlocks.length > 0 then [UndoChild.destroyNew bt.newBlocks] else []))

/-- `Build.interrupt` (inherited from `Task`): set the advisory flag,
nothing else. -/
def buildInterrupt (bt : BuildTask) : BuildTask :=
  { bt with interrupted := true }

/-! ## Constructing a `Build` (`Build.__init__`) -/

/-- The block-substitution loop of `Build.__init__`:
`for bad, good in BUILD_BLOCK_REPLACE_MAP.items(): schematic[type == bad] = good`,
applied sequentially over the map entries.  (`BUILD_BLOCK_REPLACE_MAP`
lives in `block_data`, outside `src/`; its entries are a parameter.) -/
def applyReplaceMap (m : List (Nat × Nat)) (g : Cell → Nat) : Cell → Nat :=
  m.foldl (fun g p c => if g c = p.1 then p.2 else g c) g

/-- `Build.__init__` on an already-densified schematic grid: apply the
substitution map, set the attempts grid to all-3, and — unless `force` or
`embed`, when the substituted schematic contains a dirt block (type 2 or
3) — snap the origin's `y` to the perceived ground height `groundY`
(`perception.ground_height` is an external collaborator). -/
def mkBuildTask (rm : List (Nat × Nat)) (groundY : Int) (sy sz sx : Nat)
    (grid : Cell → Nat) (origin : Vec3) (embed force : Bool) : BuildTask :=
  let schematic := applyReplaceMap rm grid
  let snap := !force && !embed &&
    ((cellsOf sy sz sx).any fun c => decide (schematic c = 2 ∨ schematic c = 3))
  { sy := sy, sz := sz, sx := sx
    schematic := schematic
    attempts := buildInitAttempts
    embed := embed
    origin := if snap then ⟨origin.x, groundY, origin.z⟩ else origin
    oldBlocksList := none
    oldOrigin := none
    newBlocks := []
    givingUpMessageSent := false
    finished := false
    interrupted := false }

/-! ## The `Destroy` task -/

/-- The state of a `Destroy` task.  `xyz_remaining` is a Python set; it is
modelled as a list carrying one iteration order of the set. -/
structure DestroyTask where
  schematic : List (Vec3 × Nat)
  xyzRemaining : List Vec3
  digMessage : Bool
  finished : Bool
  interrupted : Bool

/-- `Destroy.DIG_REACH`. -/
def DIG_REACH : Nat := 3

/-- What a single `Destroy.step` call does. -/
inductive DestroyOutcome where
  | finishEmpty
  | giveUp
  | dig (c : Vec3)
  | pushMove (c : Vec3)
deriving DecidableEq, Repr

/-- `Destroy.get_target`: try the remaining cells in ascending Manhattan
distance from the agent and return the first one for which the
pathfinding collaborator `search.astar` finds a route. -/
def destroyGetTarget (astar : Vec3 → Option (List Vec3)) (agentPos : Vec3)
    (remaining : List Vec3) : Option Vec3 :=
  (sortByKey (fun c => (manhatDist agentPos c : Int)) remaining).find?
    fun c => (astar c).isSome

/-- `Destroy.step`: clear `interrupted`; finish when nothing remains;
give up (chat + finish) when no remaining cell is reachable; dig the
chosen cell when it is within `DIG_REACH` and remove it from the
remaining set; else push a `Move` child toward it. -/
def destroyStep (astar : Vec3 → Option (List Vec3)) (agentPos : Vec3)
    (dt : DestroyTask) : DestroyOutcome × DestroyTask :=
  let dt := { dt with interrupted := false }
  if dt.xyzRemaining.isEmpty then
    (.finishEmpty, { dt with finished := true })
  else
    match destroyGetTarget astar agentPos dt.xyzRemaining with
    | none => (.giveUp, { dt with finished := true })
    | some t =>
      if manhatDist agentPos t ≤ DIG_REACH then
        (.dig t, { dt with xyzRemaining := dt.xyzRemaining.erase t })
      else
        (.pushMove t, dt)

/-- `Destroy.__init__` for a freshly derived schematic (as pushed by
`Dig.step`): `xyz_remaining = set(strip_idmeta(schematic))`; the block
types come from `util.fill_idmeta`, i.e. from the world read `typeAt`. -/
def mkDestroyTask (typeAt : Vec3 → Nat) (cells : List Vec3)
    (digMessage : Bool) : DestroyTask :=
  { schematic := cells.map fun v => (v, typeAt v)
    xyzRemaining := cells
    digMessage := digMessage
    finished := false
    interrupted := false }

/-! ## The `Fill` task -/

/-- The state of a `Fill` task: the coordinate list, the fill block type
(meta ignored), and the flags. -/
structure FillTask where
  schematic : List Vec3
  blockIdm : Nat
  finished : Bool
  interrupted : Bool

/-- `np.max(coords, axis=0)`: componentwise maximum. -/
def maxCorner : List Vec3 → Vec3
  | [] => ⟨0, 0, 0⟩
  | v :: vs => vs.foldl (fun a b => ⟨max a.x b.x, max a.y b.y, max a.z b.z⟩) v

/-- Modelled from the spec: the grid built by `blocks_list_to_npy` from
`build_utils` (not under `src/`): cell `(y, z, x)` holds the block type
of the listed coordinate `min + (x, y, z)` (the last matching entry, as
repeated numpy assignment leaves the last one), and 0 — "no block
intended" — at every cell whose coordinate is not listed. -/
def blocksListToNpyGrid (bl : List (Vec3 × Nat)) : Cell → Nat :=
  fun c =>
    (Option.map Prod.snd (bl.reverse.find? fun e =>
      decide (e.1.x - (minCorner (bl.map Prod.fst)).x = (c.x : Int) ∧
        e.1.y - (minCorner (bl.map Prod.fst)).y = (c.y : Int) ∧
        e.1.z - (minCorner (bl.map Prod.fst)).z = (c.z : Int)))).getD 0

/-- Modelled from the spec: the shape `(sy, sz, sx)` of the grid built by
`blocks_list_to_npy` — the bounding box of the listed coordinates. -/
def blocksListToNpyShape (bl : List (Vec3 × Nat)) : Nat × Nat × Nat :=
  let m := minCorner (bl.map Prod.fst)
  let M := maxCorner (bl.map Prod.fst)
  ((M.y - m.y).toNat + 1, (M.z - m.z).toNat + 1, (M.x - m.x).toNat + 1)

/-- The `Build` child `Fill.step` constructs and pushes: the coordinate
list densified with the single fill type, origin at the minimum corner,
`force=True`, `embed=True`, `fill_message=True`. -/
def fillBuildChild (rm : List (Nat × Nat)) (groundY : Int) (ft : FillTask) :
    BuildTask :=
  let bl := ft.schematic.map fun v => (v, ft.blockIdm)
  let shape := blocksListToNpyShape bl
  mkBuildTask rm groundY shape.1 shape.2.1 shape.2.2
    (blocksListToNpyGrid bl) (minCorner ft.schematic) true true

/-- `Fill.step`: push the `Build` child and finish immediately.  The body
never assigns `self.interrupted`. -/
def fillStep (rm : List (Nat × Nat)) (groundY : Int) (ft : FillTask) :
    BuildTask × FillTask :=
  (fillBuildChild rm groundY ft, { ft with finished := true })

/-! ## The `Move` task -/

/-- World-mutating primitives a `Move.step` call can invoke. -/
inductive WorldAction where
  | dig (p : Vec3)
  | place (p : Vec3) (idm : Nat)
  | stepDir (d : Vec3)
deriving DecidableEq, Repr

def Vec3.add (a b : Vec3) : Vec3 := ⟨a.x + b.x, a.y + b.y, a.z + b.z⟩

def Vec3.sub (a b : Vec3) : Vec3 := ⟨a.x - b.x, a.y - b.y, a.z - b.z⟩

/-- `np.dot` on coordinate triples. -/
def dot3 (a b : Vec3) : Int := a.x * b.x + a.y * b.y + a.z * b.z

/-- The keys of `Move.STEP_FNS`, in dict insertion order. -/
def STEP_DIRS : List Vec3 :=
  [⟨1, 0, 0⟩, ⟨-1, 0, 0⟩, ⟨0, 1, 0⟩, ⟨0, -1, 0⟩, ⟨0, 0, 1⟩, ⟨0, 0, -1⟩]

/-- The state of a `Move` task.  A cached path is a waypoint list whose
last element is expected to be the agent's current position. -/
structure MoveTask where
  target : Vec3
  approx : Nat
  path : Option (List Vec3)
  replace : List (Vec3 × Nat)
  finished : Bool
  interrupted : Bool

/-- The per-step observations of `Move.step`: the agent position, the
per-entry success of `agent.place_block` during the replace flush, the
pathfinder's answer, and the non-air blocks found in the foot-and-head
column read during the no-path fallback. -/
structure MoveObs where
  agentPos : Vec3
  placeOk : Vec3 × Nat → Bool
  astar : Option (List Vec3)
  blocksAt : Vec3 → List (Vec3 × Nat)

/-- `Move.handle_no_path`: pick the first axis direction with positive
dot product toward the target; dig the non-air blocks in the foot/head
column of the adjacent cell (queueing them for later replacement) and
step that way. -/
def handleNoPath (obs : MoveObs) (mt : MoveTask) : MoveTask × List WorldAction :=
  match STEP_DIRS.find? (fun v => decide (0 < dot3 (mt.target.sub obs.agentPos) v)) with
  | none => (mt, [])
  | some v =>
    let blocks := obs.blocksAt (obs.agentPos.add v)
    ({ mt with replace := mt.replace ++ blocks },
      blocks.map (fun b => WorldAction.dig b.1) ++ [WorldAction.stepDir v])

/-- Popping the cached path and stepping toward its new last waypoint
(`assert tuple(agent.pos) == self.path.pop(); step = self.path[-1] - agent.pos`). -/
def moveAlongPath (agentPos : Vec3) (p : List Vec3) (mt : MoveTask) :
    MoveTask × List WorldAction :=
  let p' := p.dropLast
  match p'.getLast? with
  | some next => ({ mt with path := some p' }, [WorldAction.stepDir (next.sub agentPos)])
  | none => ({ mt with path := some p' }, [])

/-- `Move.step`: clear `interrupted`; flush the replace set (successful
placements leave it, failures stay); finish — with no further world
action — when within `approx` Manhattan distance of the target; else
recompute the path when none is cached or the cached one's tail no longer
matches the agent's position, falling back to `handle_no_path` when the
pathfinder fails; else take one step along the path. -/
def moveStep (obs : MoveObs) (mt0 : MoveTask) : MoveTask × List WorldAction :=
  let mt1 := { mt0 with interrupted := false }
  let acts := (mt1.replace.filter fun r => obs.placeOk r).map fun r =>
    WorldAction.place r.1 r.2
  let mt2 := { mt1 with replace := mt1.replace.filter fun r => !obs.placeOk r }
  if manhatDist obs.agentPos mt2.target ≤ mt2.approx then
    ({ mt2 with finished := true }, acts)
  else
    let cached : Option (List Vec3) :=
      match mt2.path with
      | some p => if p.getLast? = some obs.agentPos then some p else none
      | none => none
    match cached with
    | some p =>
      ((moveAlongPath obs.agentPos p mt2).1,
        acts ++ (moveAlongPath obs.agentPos p mt2).2)
    | none =>
      match obs.astar with
      | none =>
        ((handleNoPath obs { mt2 with path := none }).1,
          acts ++ (handleNoPath obs { mt2 with path := none }).2)
      | some p =>
        ((moveAlongPath obs.agentPos p { mt2 with path := some p }).1,
          acts ++ (moveAlongPath obs.agentPos p { mt2 with path := some p }).2)

/-! ## The `Dig` task -/

/-- The state of a `Dig` task. -/
structure DigTask where
  origin : Vec3
  length : Nat
  width : Nat
  depth : Nat
  finished : Bool
  interrupted : Bool

/-- The inclusive integer range `[lo, hi]` (empty when `lo > hi`), as
Python's `range(lo, hi + 1)`. -/
def intRangeList (lo hi : Int) : List Int :=
  (List.range (hi + 1 - lo).toNat).map fun i => lo + i

/-- The box `[mx, Mx] × [my, My] × [mz, Mz]` as a cell list, in the
enumeration order of `Dig.step`'s comprehension: `x` outermost, then `y`
ascending, then `z`. -/
def boxCells (mx Mx my My mz Mz : Int) : List Vec3 :=
  (intRangeList mx Mx).flatMap fun x =>
    (intRangeList my My).flatMap fun y =>
      (intRangeList mz Mz).map fun z => (⟨x, y, z⟩ : Vec3)

/-- The top-layer test of `Dig.step`:
`np.isin(blocks[-1, :, :, 0], PASSABLE_BLOCKS).all()` — every block of the
`y = My` layer of the read region is open/passable. -/
def digTopPassable (passable : Vec3 → Bool) (dg : DigTask) : Bool :=
  (intRangeList dg.origin.x (dg.origin.x + ((dg.width : Int) - 1))).all fun x =>
    (intRangeList dg.origin.z (dg.origin.z + ((dg.length : Int) - 1))).all fun z =>
      passable ⟨x, dg.origin.y, z⟩

/-- The cell list `poss` computed by `Dig.step`: the box
`[mx, mx+width-1] × [My-(depth-1), My] × [mz, mz+length-1]`, with its
bottom bound lowered one layer (`my -= 1`) when the `y = My` top layer is
entirely passable. -/
def digStepCells (passable : Vec3 → Bool) (dg : DigTask) : List Vec3 :=
  let mx := dg.origin.x
  let My := dg.origin.y
  let mz := dg.origin.z
  let Mx := mx + ((dg.width : Int) - 1)
  let my0 := My - ((dg.depth : Int) - 1)
  let Mz := mz + ((dg.length : Int) - 1)
  let my := if digTopPassable passable dg then my0 - 1 else my0
  boxCells mx Mx my My mz Mz

/-- The rectangular volume `Dig.step` computes before the top-layer
adjustment. -/
def digVolume (dg : DigTask) : List Vec3 :=
  boxCells dg.origin.x (dg.origin.x + ((dg.width : Int) - 1))
    (dg.origin.y - ((dg.depth : Int) - 1)) dg.origin.y
    dg.origin.z (dg.origin.z + ((dg.length : Int) - 1))

/-- The volume shifted one layer deeper — every `y` lowered by one, same
cell count (what claim C7 says the adjusted cell list is). -/
def digVolumeShifted (dg : DigTask) : List Vec3 :=
  (digVolume dg).map fun v => ⟨v.x, v.y - 1, v.z⟩

/-- The volume extended one layer deeper — the same box with its bottom
bound lowered by one, keeping the top (what `Dig.step` actually
produces). -/
def digVolumeExtended (dg : DigTask) : List Vec3 :=
  boxCells dg.origin.x (dg.origin.x + ((dg.width : Int) - 1))
    (dg.origin.y - ((dg.depth : Int) - 1) - 1) dg.origin.y
    dg.origin.z (dg.origin.z + ((dg.length : Int) - 1))

/-- `Dig.step`: push one `Destroy` child over the computed cell list
(with `dig_message`) and finish.  The body never assigns
`self.interrupted`. -/
def digStep (passable : Vec3 → Bool) (typeAt : Vec3 → Nat) (dg : DigTask) :
    DestroyTask × DigTask :=
  (mkDestroyTask typeAt (digStepCells passable dg) true,
    { dg with finished := true })

/-! ## The `Loop` task and the flag behaviour of the remaining variants -/

/-- The state of a `Loop` task. -/
structure LoopTask where
  finished : Bool
  interrupted : Bool

/-- `Loop.step`: finish when the injected stop condition holds, else push
every task the injected factory returns (their number is all we track).
The body never assigns `self.interrupted`. -/
def loopStep (stopCondition : Bool) (numNewTasks : Nat) (lt : LoopTask) :
    LoopTask × Nat :=
  if stopCondition then ({ lt with finished := true }, 0)
  else (lt, numNewTasks)

/-- The effect of `Dance.step` on `(interrupted, finished)`: the body
starts with `self.interrupted = False`; it finishes when the movement
object yields no move. -/
def danceStepFlags (mvIsNone : Bool) (_interrupted finished : Bool) :
    Bool × Bool :=
  (false, if mvIsNone then true else finished)

/-- The effect of `Spawn.step` on `(interrupted, finished)`: the body
never assigns `self.interrupted`; `finished` is set only in the
within-reach branch. -/
def spawnStepFlags (withinReach : Bool) (interrupted finished : Bool) :
    Bool × Bool :=
  (interrupted, if withinReach then true else finished)

/-- The effect of `Undo.step` on `(interrupted, finished)`: the body
never assigns `self.interrupted` and always finishes. -/
def undoTaskStepFlags (interrupted : Bool) : Bool × Bool :=
  (interrupted, true)

/-- `Task.interrupt`, shared by every variant: set the advisory flag. -/
def moveInterrupt (mt : MoveTask) : MoveTask := { mt with interrupted := true }

def destroyInterrupt (dt : DestroyTask) : DestroyTask := { dt with interrupted := true }

def fillInterrupt (ft : FillTask) : FillTask := { ft with interrupted := true }

def digInterrupt (dg : DigTask) : DigTask := { dg with interrupted := true }

def loopInterrupt (lt : LoopTask) : LoopTask := { lt with interrupted := true }

/-! ## `Task.check_finished` -/

/-- The memory record a task's `block_memory` back-reference points to
(set by the memory collaborator); `end_time` starts unset. -/
structure MemRec where
  endTime : Option Int

/-- The fields of the abstract `Task` contract that `check_finished`
touches: the completion flag, the optional `block_memory` back-reference,
and the `end_time` value the memory collaborator stamped on the task. -/
structure TaskCore where
  finished : Bool
  blockMemory : Option MemRec
  endTime : Int

/-- `Task.check_finished`: when `finished`, stamp
`block_memory.end_time = self.end_time` (if a memory record is attached);
return `finished`. -/
def checkFinished (t : TaskCore) : Bool × TaskCore :=
  if t.finished then
    match t.blockMemory with
    | some m => (t.finished, { t with blockMemory := some { m with endTime := some t.endTime } })
    | none => (t.finished, t)
  else (t.finished, t)

/-! ## Concrete instances used to evaluate the theorems -/

/-- Empty `block_data` constants: no ignore set, no interchangeable
pairs, nothing passable. -/
def bdEmpty : BlockData := ⟨[], [], []⟩

/-- A 1×1×1 `Build` of block type 1 at origin `(0, 64, 0)` (the worked
example of the spec), before its first step. -/
def btUnit : BuildTask :=
  { sy := 1, sz := 1, sx := 1
    schematic := fun _ => 1
    attempts := buildInitAttempts
    embed := false
    origin := ⟨0, 64, 0⟩
    oldBlocksList := none
    oldOrigin := none
    newBlocks := []
    givingUpMessageSent := false
    finished := false
    interrupted := false }

/-- A 2×1×1 `Build` (two cells stacked in `y`), used to exercise target
selection. -/
def btPair : BuildTask := { btUnit with sy := 2 }

/-- A `Build` state as after a step: a non-`None` undo snapshot and one
placed block. -/
def btStepped : BuildTask :=
  { btUnit with
    oldBlocksList := some [(⟨0, 64, 0⟩, 5)]
    oldOrigin := some ⟨0, 64, 0⟩
    newBlocks := [(⟨0, 64, 0⟩, 1)] }

/-- Observations of a world that already matches `btUnit`'s schematic. -/
def obsDone : BuildObs := ⟨fun _ => 1, ⟨5, 64, 5⟩, true⟩

/-- Observations of an all-air world. -/
def obsAir : BuildObs := ⟨fun _ => 0, ⟨5, 64, 5⟩, true⟩

/-- A `Destroy` with a single remaining cell. -/
def dtUnit : DestroyTask := ⟨[(⟨1, 2, 3⟩, 7)], [⟨1, 2, 3⟩], false, false, false⟩

/-- A `Move` toward `(1, 0, 0)` with the default `approx = 1` and an
empty replace set. -/
def mtUnit : MoveTask := ⟨⟨1, 0, 0⟩, 1, none, [], false, false⟩

/-- Observations for a `Move` step from the world origin. -/
def moveObsUnit : MoveObs := ⟨⟨0, 0, 0⟩, fun _ => true, none, fun _ => []⟩

/-- A `Fill` of one coordinate with block type 1. -/
def ftUnit : FillTask := ⟨[⟨2, 5, 2⟩], 1, false, false⟩

/-- A 1×1×1 `Dig` at `(0, 10, 0)`. -/
def dgUnit : DigTask := ⟨⟨0, 10, 0⟩, 1, 1, 1, false, false⟩

/-- A finished task with an attached memory record and end time 42. -/
def tcUnit : TaskCore := ⟨true, some ⟨none⟩, 42⟩

/-! # Theorems -/

theorem mem_insertByKey {k : α → Int} {a b : α} {l : List α}
    (h : b ∈ insertByKey k a l) : b = a ∨ b ∈ l := by
  induction l with
  | nil => simpa [insertByKey] using h
  | cons c l ih =>
    simp only [insertByKey] at h
    by_cases hle : k a ≤ k c
    · simp [hle] at h
      rcases h with h | h | h
      · exact Or.inl h
      · exact Or.inr (by simp [h])
      · exact Or.inr (by simp [h])
    · simp [hle] at h
      rcases h with h | h
      · exact Or.inr (by simp [h])
      · rcases ih h with h' | h'
        · exact Or.inl h'
        · exact Or.inr (by simp [h'])

theorem mem_sortByKey {k : α → Int} {b : α} {l : List α}
    (h : b ∈ sortByKey k l) : b ∈ l := by
  induction l with
  | nil => simp [sortByKey] at h
  | cons a l ih =>
    rcases mem_insertByKey (l := sortByKey k l) h with h' | h'
    · simp [h']
    · simp [ih h']

theorem lexLeB_refl (ks : List (α → Int)) (a : α) : lexLeB ks a a = true := by
  induction ks with
  | nil => rfl
  | cons k ks ih => simp [lexLeB, ih]

theorem lexLeB_trans {ks : List (α → Int)} {a b c : α}
    (hab : lexLeB ks a b = true) (hbc : lexLeB ks b c = true) :
    lexLeB ks a c = true := by
  induction ks with
  | nil => rfl
  | cons k ks ih =>
    simp only [lexLeB, Bool.or_eq_true, Bool.and_eq_true, beq_iff_eq,
      decide_eq_true_eq] at hab hbc ⊢
    rcases hab with hab | ⟨hab, hab'⟩
    · rcases hbc with hbc | ⟨hbc, _⟩
      · exact Or.inl (lt_trans hab hbc)
      · exact Or.inl (hbc ▸ hab)
    · rcases hbc with hbc | ⟨hbc, hbc'⟩
      · exact Or.inl (hab ▸ hbc)
      · exact Or.inr ⟨hab.trans hbc, ih hab' hbc'⟩

theorem sortedLex_nil_keys (l : List α) : SortedLex [] l := by
  induction l with
  | nil => exact List.Pairwise.nil
  | cons a l ih => exact List.Pairwise.cons (fun _ _ => rfl) ih

/-- Radix step, insertion: inserting `a` into a `(k :: ks)`-sorted list
keeps it `(k :: ks)`-sorted, provided `a` is `ks`-below every element of
the list (which stability of the previous sorting passes guarantees). -/
theorem sortedLex_insertByKey {k : α → Int} {ks : List (α → Int)}
    {a : α} {l : List α} (hs : SortedLex (k :: ks) l)
    (ha : ∀ b ∈ l, lexLeB ks a b = true) :
    SortedLex (k :: ks) (insertByKey k a l) := by
  induction l with
  | nil =>
    exact List.Pairwise.cons (by simp) List.Pairwise.nil
  | cons b l ih =>
    rw [SortedLex, List.pairwise_cons] at hs
    simp only [insertByKey]
    by_cases hle : k a ≤ k b
    · rw [if_pos hle]
      refine List.Pairwise.cons ?_ (List.Pairwise.cons hs.1 hs.2)
      intro c hc
      rcases List.mem_cons.mp hc with hc | hc
      · -- c = b
        subst hc
        simp only [lexLeB, Bool.or_eq_true, Bool.and_eq_true, beq_iff_eq,
          decide_eq_true_eq]
        rcases lt_or_eq_of_le hle with h | h
        · exact Or.inl h
        · exact Or.inr ⟨h, ha c (by simp)⟩
      · -- c ∈ l : go through b
        have hbc := hs.1 c hc
        simp only [lexLeB, Bool.or_eq_true, Bool.and_eq_true, beq_iff_eq,
          decide_eq_true_eq] at hbc ⊢
        rcases hbc with hbc | ⟨hbc, _⟩
        · exact Or.inl (lt_of_le_of_lt hle hbc)
        · rcases lt_or_eq_of_le (hbc ▸ hle) with h | h
          · exact Or.inl h
          · exact Or.inr ⟨h, ha c (by simp [hc])⟩
    · rw [if_neg hle]
      refine List.Pairwise.cons ?_ (ih hs.2 (fun c hc => ha c (by simp [hc])))
      intro c hc
      rcases mem_insertByKey hc with hc' | hc'
      · -- c = a : b is k-below a
        subst hc'
        simp only [lexLeB, Bool.or_eq_true, decide_eq_true_eq]
        exact Or.inl (lt_of_not_le hle)
      · exact hs.1 c hc'

/-- Radix step: stably sorting a `ks`-sorted list by a new key `k` yields a
`(k :: ks)`-sorted list. -/
theorem sortedLex_sortByKey {k : α → Int} {ks : List (α → Int)} {l : List α}
    (hs : SortedLex ks l) : SortedLex (k :: ks) (sortByKey k l) := by
  induction l with
  | nil => exact List.Pairwise.nil
  | cons a l ih =>
    rw [SortedLex, List.pairwise_cons] at hs
    exact sortedLex_insertByKey (ih hs.2)
      (fun b hb => hs.1 b (mem_sortByKey hb))

theorem insertByKey_ne_nil (k : α → Int) (a : α) (l : List α) :
    insertByKey k a l ≠ [] := by
  cases l with
  | nil => simp [insertByKey]
  | cons b l =>
    simp only [insertByKey]
    by_cases hle : k a ≤ k b <;> simp [hle]

theorem sortByKey_ne_nil {k : α → Int} {l : List α} (h : l ≠ []) :
    sortByKey k l ≠ [] := by
  cases l with
  | nil => exact absurd rfl h
  | cons a l => exact insertByKey_ne_nil k a (sortByKey k l)

theorem mem_insertByKey_iff {k : α → Int} {a b : α} {l : List α} :
    b ∈ insertByKey k a l ↔ b = a ∨ b ∈ l := by
  induction l with
  | nil => simp [insertByKey]
  | cons c l ih =>
    simp only [insertByKey]
    by_cases hle : k a ≤ k c
    · simp [hle]
    · simp only [hle, if_false, List.mem_cons, ih]
      tauto

theorem mem_sortByKey_iff {k : α → Int} {b : α} {l : List α} :
    b ∈ sortByKey k l ↔ b ∈ l := by
  induction l with
  | nil => simp [sortByKey]
  | cons a l ih =>
    simp only [sortByKey, mem_insertByKey_iff, ih, List.mem_cons]

theorem mem_of_head?_eq_some {l : List α} {a : α} (h : l.head? = some a) :
    a ∈ l := by
  cases l with
  | nil => simp at h
  | cons b t =>
    simp only [List.head?_cons, Option.some.injEq] at h
    simp [h]

/-! ## Facts about the `Build` diff mask and target selection -/

theorem head?_eq_some_of_ne_nil {l : List α} (h : l ≠ []) :
    ∃ r, l.head? = some r := by
  cases l with
  | nil => exact absurd rfl h
  | cons a t => exact ⟨a, rfl⟩

theorem getNextTarget_eq_some {bt : BuildTask} {p : Vec3} {ds : List Cell}
    (h : ds ≠ []) : ∃ r, getNextTarget bt p ds = some r :=
  head?_eq_some_of_ne_nil
    (sortByKey_ne_nil (sortByKey_ne_nil (sortByKey_ne_nil (sortByKey_ne_nil h))))

theorem getNextTarget_mem {bt : BuildTask} {p : Vec3} {ds : List Cell} {r : Cell}
    (h : getNextTarget bt p ds = some r) : r ∈ ds := by
  have hm : r ∈ sortByKey (selfOccKey (relposYzx p bt.origin))
      (sortByKey yKey
        (sortByKey (negAttemptsKey bt)
          (sortByKey (distKey (relposYzx p bt.origin)) ds))) :=
    mem_of_head?_eq_some h
  rw [mem_sortByKey_iff, mem_sortByKey_iff, mem_sortByKey_iff,
    mem_sortByKey_iff] at hm
  exact hm

theorem diffCell_eq_true_iff (bd : BlockData) (bt : BuildTask)
    (current : Cell → Nat) (c : Cell) :
    diffCell bd bt current c = true ↔
      current c ≠ bt.schematic c ∧ 0 < bt.attempts c ∧
      current c ∉ bd.ignore ∧ (bt.embed = true → bt.schematic c ≠ 0) ∧
      ∀ p ∈ bd.pairs, ¬((current c = p.1 ∨ current c = p.2) ∧
        (bt.schematic c = p.1 ∨ bt.schematic c = p.2)) := by
  unfold diffCell inPair
  simp only [Bool.and_eq_true, Bool.or_eq_true, Bool.not_eq_true',
    decide_eq_true_eq, decide_eq_false_iff_not, List.all_eq_true]
  constructor
  · rintro ⟨⟨⟨⟨h1, h2⟩, h3⟩, h4⟩, h5⟩
    refine ⟨h1, h2, h3, ?_, ?_⟩
    · intro he
      rcases h4 with h4 | h4
      · rw [he] at h4; exact absurd h4 (by simp)
      · exact h4
    · intro p hp hcon
      rcases h5 p hp with h | h
      · exact h hcon.1
      · exact h hcon.2
  · rintro ⟨h1, h2, h3, h4, h5⟩
    refine ⟨⟨⟨⟨h1, h2⟩, h3⟩, ?_⟩, ?_⟩
    · by_cases he : bt.embed = true
      · exact Or.inr (h4 he)
      · exact Or.inl (by simp_all)
    · intro p hp
      by_cases hc : current c = p.1 ∨ current c = p.2
      · exact Or.inr fun hs => h5 p hp ⟨hc, hs⟩
      · exact Or.inl hc

theorem diffCell_eq_false_iff (bd : BlockData) (bt : BuildTask)
    (current : Cell → Nat) (c : Cell) :
    diffCell bd bt current c = false ↔
      current c = bt.schematic c ∨ bt.attempts c = 0 ∨
      current c ∈ bd.ignore ∨ (bt.embed = true ∧ bt.schematic c = 0) ∨
      ∃ p ∈ bd.pairs, (current c = p.1 ∨ current c = p.2) ∧
        (bt.schematic c = p.1 ∨ bt.schematic c = p.2) := by
  rw [← Bool.not_eq_true, diffCell_eq_true_iff]
  constructor
  · intro h
    by_cases h1 : current c = bt.schematic c
    · exact Or.inl h1
    by_cases h2 : bt.attempts c = 0
    · exact Or.inr (Or.inl h2)
    by_cases h3 : current c ∈ bd.ignore
    · exact Or.inr (Or.inr (Or.inl h3))
    by_cases h4 : bt.embed = true ∧ bt.schematic c = 0
    · exact Or.inr (Or.inr (Or.inr (Or.inl h4)))
    refine Or.inr (Or.inr (Or.inr (Or.inr ?_)))
    by_contra h5
    push_neg at h5
    exact h ⟨h1, Nat.pos_of_ne_zero h2, h3, fun he hs => h4 ⟨he, hs⟩,
      fun p hp hcon => hcon.2.elim (h5 p hp hcon.1).1 (h5 p hp hcon.1).2⟩
  · rintro (h | h | h | h | h) ⟨h1, h2, h3, h4, h5⟩
    · exact h1 h
    · simp [h] at h2
    · exact h3 h
    · exact h4 h.1 h.2
    · obtain ⟨p, hp, hA, hB⟩ := h
      exact h5 p hp ⟨hA, hB⟩

theorem diffCells_eq_nil_iff (bd : BlockData) (bt : BuildTask)
    (current : Cell → Nat) :
    diffCells bd bt current = [] ↔
      ∀ c ∈ cellsOf bt.sy bt.sz bt.sx, diffCell bd bt current c = false := by
  unfold diffCells
  rw [List.filter_eq_nil_iff]
  simp [Bool.not_eq_true]

theorem buildStepOutcome_of_empty_diff {bd : BlockData} {bt : BuildTask}
    {current : Cell → Nat} (agentPos : Vec3)
    (h1 : diffCells bd bt current = []) :
    buildStepOutcome bd bt current agentPos = .finish := by
  unfold buildStepOutcome
  rw [if_pos (by simp [h1])]

theorem buildStepOutcome_of_removes {bd : BlockData} {bt : BuildTask}
    {current : Cell → Nat} (agentPos : Vec3)
    (h1 : diffCells bd bt current ≠ [])
    (h2 : (diffCells bd bt current).filter
      (fun c => decide (current c ≠ 0)) ≠ []) :
    buildStepOutcome bd bt current agentPos =
      .pushDestroy ((diffCells bd bt current).filter
        (fun c => decide (current c ≠ 0))) := by
  have h1' : (diffCells bd bt current).isEmpty = false := by
    simpa [List.isEmpty_iff] using h1
  have h2' : ((diffCells bd bt current).filter
      (fun c => decide (current c ≠ 0))).isEmpty = false := by
    simpa [List.isEmpty_iff] using h2
  unfold buildStepOutcome
  rw [if_neg (by simp [h1']), if_pos (by rw [h2']; rfl)]

theorem buildStepOutcome_of_target {bd : BlockData} {bt : BuildTask}
    {current : Cell → Nat} {agentPos : Vec3} {r : Cell}
    (h1 : diffCells bd bt current ≠ [])
    (h2 : (diffCells bd bt current).filter
      (fun c => decide (current c ≠ 0)) = [])
    (hr : getNextTarget bt agentPos (diffCells bd bt current) = some r) :
    buildStepOutcome bd bt current agentPos =
      if cellTarget bt r = agentPos ∨
          cellTarget bt r = ⟨agentPos.x, agentPos.y + 1, agentPos.z⟩ then
        .stepAside
      else if manhatDist agentPos (cellTarget bt r) ≤ PLACE_REACH then
        .placeAt r
      else
        .pushMove r := by
  have h1' : (diffCells bd bt current).isEmpty = false := by
    simpa [List.isEmpty_iff] using h1
  have h2' : ((diffCells bd bt current).filter
      (fun c => decide (current c ≠ 0))).isEmpty = true := by
    rw [h2]; rfl
  unfold buildStepOutcome
  rw [if_neg (by simp [h1']), if_neg (by rw [h2']; simp), hr]

/-- One case analysis of `buildStepOutcome`, shared by several claims. -/
theorem buildStepOutcome_cases (bd : BlockData) (bt : BuildTask)
    (current : Cell → Nat) (agentPos : Vec3) :
    (buildStepOutcome bd bt current agentPos = .finish ∧
      diffCells bd bt current = []) ∨
    (∃ cs, buildStepOutcome bd bt current agentPos = .pushDestroy cs ∧
      cs = (diffCells bd bt current).filter (fun c => decide (current c ≠ 0)) ∧
      cs ≠ []) ∨
    (∃ r, getNextTarget bt agentPos (diffCells bd bt current) = some r ∧
      r ∈ diffCells bd bt current ∧
      (diffCells bd bt current).filter (fun c => decide (current c ≠ 0)) = [] ∧
      (buildStepOutcome bd bt current agentPos = .stepAside ∨
        buildStepOutcome bd bt current agentPos = .placeAt r ∨
        buildStepOutcome bd bt current agentPos = .pushMove r)) := by
  by_cases h1 : diffCells bd bt current = []
  · exact Or.inl ⟨buildStepOutcome_of_empty_diff agentPos h1, h1⟩
  · by_cases h2 : (diffCells bd bt current).filter
        (fun c => decide (current c ≠ 0)) = []
    · right; right
      obtain ⟨r, hr⟩ := @getNextTarget_eq_some bt agentPos (diffCells bd bt current) h1
      refine ⟨r, hr, getNextTarget_mem hr, h2, ?_⟩
      rw [buildStepOutcome_of_target h1 h2 hr]
      by_cases h3 : cellTarget bt r = agentPos ∨
          cellTarget bt r = ⟨agentPos.x, agentPos.y + 1, agentPos.z⟩
      · simp [h3]
      · by_cases h4 : manhatDist agentPos (cellTarget bt r) ≤ PLACE_REACH
        · simp [h3, h4]
        · simp [h3, h4]
    · exact Or.inr (Or.inl ⟨_, buildStepOutcome_of_removes agentPos h1 h2,
        rfl, h2⟩)


theorem buildStepOutcome_eq_finish_iff (bd : BlockData) (bt : BuildTask)
    (current : Cell → Nat) (agentPos : Vec3) :
    buildStepOutcome bd bt current agentPos = .finish ↔
      diffCells bd bt current = [] := by
  constructor
  · intro h
    rcases buildStepOutcome_cases bd bt current agentPos with
      ⟨_, h1⟩ | ⟨cs, hcs, _, _⟩ | ⟨r, _, _, _, ho⟩
    · exact h1
    · rw [h] at hcs; exact absurd hcs (by simp)
    · rcases ho with ho | ho | ho <;> (rw [h] at ho; exact absurd ho (by simp))
  · intro h
    exact buildStepOutcome_of_empty_diff agentPos h

/-! ## Claim C1 -/

/-- **C1**: `Build.step` calls `finish` exactly when the computed diff
mask is all-false: at that moment, for every cell of the schematic grid,
either the world's current block type equals the schematic's, or the
cell's attempts counter is 0, or the current type is in the ignore set,
or (when `embed` is set) the schematic intends no block there, or the
current and schematic types fall in a declared interchangeable pair — and
on that branch the step sets the `finished` flag. -/
theorem build_finish_iff_diff_allFalse (bd : BlockData) (bt : BuildTask)
    (obs : BuildObs) :
    (buildStepOutcome bd bt obs.current obs.agentPos = .finish ↔
      ∀ c ∈ cellsOf bt.sy bt.sz bt.sx,
        obs.current c = bt.schematic c ∨ bt.attempts c = 0 ∨
        obs.current c ∈ bd.ignore ∨ (bt.embed = true ∧ bt.schematic c = 0) ∨
        ∃ p ∈ bd.pairs, (obs.current c = p.1 ∨ obs.current c = p.2) ∧
          (bt.schematic c = p.1 ∨ bt.schematic c = p.2)) ∧
    (buildStepOutcome bd bt obs.current obs.agentPos = .finish →
      (buildStep bd bt obs).finished = true) := by
  constructor
  · rw [buildStepOutcome_eq_finish_iff, diffCells_eq_nil_iff]
    constructor
    · intro h c hc
      exact (diffCell_eq_false_iff bd bt obs.current c).mp (h c hc)
    · intro h c hc
      exact (diffCell_eq_false_iff bd bt obs.current c).mpr (h c hc)
  · intro h
    unfold buildStep
    rw [h]

/-- Evaluation of the C1 theorem on the spec's worked example: a 1×1×1
schematic of block type 1 that the world already matches finishes, with
the `finished` flag set. -/
theorem build_finish_iff_diff_allFalse_witness :
    (buildStep bdEmpty btUnit obsDone).finished = true :=
  (build_finish_iff_diff_allFalse bdEmpty btUnit obsDone).2
    ((build_finish_iff_diff_allFalse bdEmpty btUnit obsDone).1.mpr (by decide))


/-! ## Claim C2 -/

/-- **C2**: for every non-empty masked cell list and every agent
position, `Build.get_next_target` — four stable sorts applied in the
listed order: Manhattan distance ascending, then attempts descending,
then `y` ascending, then own-foot-or-head cells last — returns the unique
first element of the sorted list, and that element is in the list and
lexicographically minimal for the net priority order: self-occupancy
avoidance dominates, then lower layers, then higher remaining retry
budget, then nearness. -/
theorem get_next_target_stable_sort_minimum (bt : BuildTask) (agentPos : Vec3)
    (ds : List Cell) (h : ds ≠ []) :
    ∃ r, getNextTarget bt agentPos ds = some r ∧ r ∈ ds ∧
      ∀ c ∈ ds,
        lexLeB [selfOccKey (relposYzx agentPos bt.origin), yKey,
          negAttemptsKey bt, distKey (relposYzx agentPos bt.origin)] r c
          = true := by
  have hs4 : SortedLex [distKey (relposYzx agentPos bt.origin)]
      (sortByKey (distKey (relposYzx agentPos bt.origin)) ds) :=
    sortedLex_sortByKey (sortedLex_nil_keys ds)
  have hs3 := sortedLex_sortByKey (k := negAttemptsKey bt) hs4
  have hs2 := sortedLex_sortByKey (k := yKey) hs3
  have hs1 := sortedLex_sortByKey (k := selfOccKey (relposYzx agentPos bt.origin)) hs2
  have hne : sortByKey (selfOccKey (relposYzx agentPos bt.origin))
      (sortByKey yKey
        (sortByKey (negAttemptsKey bt)
          (sortByKey (distKey (relposYzx agentPos bt.origin)) ds))) ≠ [] :=
    sortByKey_ne_nil (sortByKey_ne_nil (sortByKey_ne_nil (sortByKey_ne_nil h)))
  cases hp : sortByKey (selfOccKey (relposYzx agentPos bt.origin))
      (sortByKey yKey
        (sortByKey (negAttemptsKey bt)
          (sortByKey (distKey (relposYzx agentPos bt.origin)) ds))) with
  | nil => exact absurd hp hne
  | cons r rest =>
    have hmemr : r ∈ ds := by
      have : r ∈ sortByKey (selfOccKey (relposYzx agentPos bt.origin))
          (sortByKey yKey
            (sortByKey (negAttemptsKey bt)
              (sortByKey (distKey (relposYzx agentPos bt.origin)) ds))) := by
        rw [hp]; simp
      rwa [mem_sortByKey_iff, mem_sortByKey_iff, mem_sortByKey_iff,
        mem_sortByKey_iff] at this
    refine ⟨r, ?_, hmemr, ?_⟩
    · show (sortByKey (selfOccKey (relposYzx agentPos bt.origin))
        (sortByKey yKey
          (sortByKey (negAttemptsKey bt)
            (sortByKey (distKey (relposYzx agentPos bt.origin)) ds)))).head?
        = some r
      rw [hp]; rfl
    · intro c hc
      have hcp : c ∈ sortByKey (selfOccKey (relposYzx agentPos bt.origin))
          (sortByKey yKey
            (sortByKey (negAttemptsKey bt)
              (sortByKey (distKey (relposYzx agentPos bt.origin)) ds))) := by
        rw [mem_sortByKey_iff, mem_sortByKey_iff, mem_sortByKey_iff,
          mem_sortByKey_iff]
        exact hc
      rw [hp] at hcp hs1
      rw [SortedLex, List.pairwise_cons] at hs1
      rcases List.mem_cons.mp hcp with hcr | hcr
      · rw [hcr]
        exact lexLeB_refl _ r
      · exact hs1.1 c hcr

/-- Evaluation of the C2 theorem: a two-cell mask on a 2×1×1 `Build`. -/
theorem get_next_target_stable_sort_minimum_witness :
    ∃ r, getNextTarget btPair ⟨5, 64, 5⟩ [⟨1, 0, 0⟩, ⟨0, 0, 0⟩] = some r ∧
      r ∈ [(⟨1, 0, 0⟩ : Cell), ⟨0, 0, 0⟩] ∧
      ∀ c ∈ [(⟨1, 0, 0⟩ : Cell), ⟨0, 0, 0⟩],
        lexLeB [selfOccKey (relposYzx ⟨5, 64, 5⟩ btPair.origin), yKey,
          negAttemptsKey btPair, distKey (relposYzx ⟨5, 64, 5⟩ btPair.origin)]
          r c = true :=
  get_next_target_stable_sort_minimum btPair ⟨5, 64, 5⟩ _ (by decide)


/-! ## Claim C3 -/

theorem diffCells_mem_diffCell {bd : BlockData} {bt : BuildTask}
    {current : Cell → Nat} {c : Cell} (h : c ∈ diffCells bd bt current) :
    diffCell bd bt current c = true :=
  (List.mem_filter.mp h).2

theorem buildStepOutcome_placeAt_mem {bd : BlockData} {bt : BuildTask}
    {current : Cell → Nat} {agentPos : Vec3} {c : Cell}
    (h : buildStepOutcome bd bt current agentPos = .placeAt c) :
    c ∈ diffCells bd bt current := by
  rcases buildStepOutcome_cases bd bt current agentPos with
    ⟨hf, _⟩ | ⟨cs, hcs, _, _⟩ | ⟨r, _, hmem, _, ho⟩
  · rw [h] at hf; simp at hf
  · rw [h] at hcs; simp at hcs
  · rcases ho with ho | ho | ho
    · rw [h] at ho; simp at ho
    · rw [h] at ho
      cases ho
      exact hmem
    · rw [h] at ho; simp at ho

theorem buildStepOutcome_placeAt_pos {bd : BlockData} {bt : BuildTask}
    {current : Cell → Nat} {agentPos : Vec3} {c : Cell}
    (h : buildStepOutcome bd bt current agentPos = .placeAt c) :
    0 < bt.attempts c :=
  ((diffCell_eq_true_iff bd bt current c).mp
    (diffCells_mem_diffCell (buildStepOutcome_placeAt_mem h))).2.1

/-- On the place branch the step decrements exactly the chosen cell. -/
theorem buildStep_attempts_of_placeAt {bd : BlockData} {bt : BuildTask}
    {obs : BuildObs} {c : Cell}
    (h : buildStepOutcome bd bt obs.current obs.agentPos = .placeAt c) :
    (buildStep bd bt obs).attempts =
      fun c' => if c' = c then uint8Dec (bt.attempts c') else bt.attempts c' := by
  unfold buildStep
  rw [h]
  dsimp only []
  split_ifs <;> rfl

/-- On every other branch the step leaves the attempts grid unchanged. -/
theorem buildStep_attempts_of_ne_placeAt {bd : BlockData} {bt : BuildTask}
    {obs : BuildObs}
    (h : ∀ c, buildStepOutcome bd bt obs.current obs.agentPos ≠ .placeAt c) :
    (buildStep bd bt obs).attempts = bt.attempts := by
  unfold buildStep
  cases hout : buildStepOutcome bd bt obs.current obs.agentPos with
  | placeAt c => exact absurd hout (h c)
  | finish => rfl
  | pushDestroy cs => rfl
  | stepAside => rfl
  | pushMove c => rfl

theorem buildStep_attempts_le (bd : BlockData) (bt : BuildTask) (obs : BuildObs)
    (c : Cell) : (buildStep bd bt obs).attempts c ≤ bt.attempts c := by
  by_cases hp : ∃ c0, buildStepOutcome bd bt obs.current obs.agentPos = .placeAt c0
  · obtain ⟨c0, h0⟩ := hp
    rw [buildStep_attempts_of_placeAt h0]
    show (if c = c0 then uint8Dec (bt.attempts c) else bt.attempts c) ≤ bt.attempts c
    by_cases hc : c = c0
    · subst hc
      rw [if_pos rfl]
      have hpos := buildStepOutcome_placeAt_pos h0
      unfold uint8Dec
      rw [if_neg (Nat.pos_iff_ne_zero.mp hpos)]
      omega
    · rw [if_neg hc]
  · push_neg at hp
    rw [buildStep_attempts_of_ne_placeAt hp]

theorem buildSteps_attempts_le (bd : BlockData) (bt : BuildTask)
    (obss : List BuildObs) (c : Cell) :
    (buildSteps bd bt obss).attempts c ≤ bt.attempts c := by
  induction obss generalizing bt with
  | nil => exact le_refl _
  | cons o os ih =>
    exact le_trans (ih (buildStep bd bt o)) (buildStep_attempts_le bd bt o c)

/-- **C3**: the attempts counter of every cell starts at 3; a single
`Build.step` changes it only by decrementing — by exactly one, and only
at the single cell selected from the diff mask, which requires a positive
counter (so the `uint8` decrement never wraps below 0); and over every
sequence of steps the counter never increases (and, being a natural
number that never wraps, never becomes negative). -/
theorem build_attempts_budget (bd : BlockData) (bt : BuildTask) (obs : BuildObs) :
    (∀ c, buildInitAttempts c = 3) ∧
    (∀ c, (buildStep bd bt obs).attempts c ≤ bt.attempts c ∧
      bt.attempts c ≤ (buildStep bd bt obs).attempts c + 1 ∧
      ((buildStep bd bt obs).attempts c ≠ bt.attempts c →
        buildStepOutcome bd bt obs.current obs.agentPos = .placeAt c ∧
        0 < bt.attempts c ∧
        (buildStep bd bt obs).attempts c = bt.attempts c - 1)) ∧
    (∀ obss c, (buildSteps bd bt obss).attempts c ≤ bt.attempts c) := by
  refine ⟨fun _ => rfl, fun c => ?_, fun obss c => buildSteps_attempts_le bd bt obss c⟩
  refine ⟨buildStep_attempts_le bd bt obs c, ?_, ?_⟩
  · by_cases hp : ∃ c0, buildStepOutcome bd bt obs.current obs.agentPos = .placeAt c0
    · obtain ⟨c0, h0⟩ := hp
      rw [buildStep_attempts_of_placeAt h0]
      show bt.attempts c ≤ (if c = c0 then uint8Dec (bt.attempts c) else bt.attempts c) + 1
      by_cases hc : c = c0
      · subst hc
        rw [if_pos rfl]
        have hpos := buildStepOutcome_placeAt_pos h0
        unfold uint8Dec
        rw [if_neg (Nat.pos_iff_ne_zero.mp hpos)]
        omega
      · rw [if_neg hc]
        omega
    · push_neg at hp
      rw [buildStep_attempts_of_ne_placeAt hp]
      omega
  · intro hne
    by_cases hp : ∃ c0, buildStepOutcome bd bt obs.current obs.agentPos = .placeAt c0
    · obtain ⟨c0, h0⟩ := hp
      rw [buildStep_attempts_of_placeAt h0] at hne ⊢
      by_cases hc : c = c0
      · subst hc
        have hpos := buildStepOutcome_placeAt_pos h0
        show _ ∧ _ ∧ (if c = c then uint8Dec (bt.attempts c) else bt.attempts c) = bt.attempts c - 1
        rw [if_pos rfl]
        unfold uint8Dec
        rw [if_neg (Nat.pos_iff_ne_zero.mp hpos)]
        exact ⟨h0, hpos, rfl⟩
      · exfalso
        apply hne
        show (if c = c0 then uint8Dec (bt.attempts c) else bt.attempts c) = bt.attempts c
        rw [if_neg hc]
    · push_neg at hp
      rw [buildStep_attempts_of_ne_placeAt hp] at hne
      exact absurd rfl hne


/-! ## Claim C4 -/

theorem destroyGetTarget_eq_none {astar : Vec3 → Option (List Vec3)}
    {agentPos : Vec3} {remaining : List Vec3}
    (h : ∀ c ∈ remaining, astar c = none) :
    destroyGetTarget astar agentPos remaining = none := by
  unfold destroyGetTarget
  rw [List.find?_eq_none]
  intro c hc
  rw [h c (mem_sortByKey_iff.mp hc)]
  simp

/-- **C4**: when a `Destroy` task still has remaining cells but the
pathfinder reports no route to any of them (tried in ascending Manhattan
distance), that step gives up — emitting the user-visible failure chat —
sets `finished`, digs nothing, and leaves the remaining cell set
unchanged and non-empty. -/
theorem destroy_unreachable_gives_up (astar : Vec3 → Option (List Vec3))
    (agentPos : Vec3) (dt : DestroyTask)
    (hne : dt.xyzRemaining ≠ [])
    (hnopath : ∀ c ∈ dt.xyzRemaining, astar c = none) :
    (destroyStep astar agentPos dt).1 = .giveUp ∧
    (destroyStep astar agentPos dt).2.finished = true ∧
    (destroyStep astar agentPos dt).2.xyzRemaining = dt.xyzRemaining ∧
    dt.xyzRemaining ≠ [] := by
  have hempty : dt.xyzRemaining.isEmpty = false := by
    simpa [List.isEmpty_iff] using hne
  have htarget : destroyGetTarget astar agentPos dt.xyzRemaining = none :=
    destroyGetTarget_eq_none hnopath
  unfold destroyStep
  dsimp only []
  rw [if_neg (by rw [hempty]; simp), htarget]
  exact ⟨rfl, rfl, rfl, hne⟩

/-- Evaluation of the C4 theorem: one remaining cell, a pathfinder that
always fails. -/
theorem destroy_unreachable_gives_up_witness :
    (destroyStep (fun _ => none) ⟨0, 0, 0⟩ dtUnit).1 = .giveUp ∧
    (destroyStep (fun _ => none) ⟨0, 0, 0⟩ dtUnit).2.finished = true ∧
    (destroyStep (fun _ => none) ⟨0, 0, 0⟩ dtUnit).2.xyzRemaining =
      dtUnit.xyzRemaining ∧
    dtUnit.xyzRemaining ≠ [] :=
  destroy_unreachable_gives_up (fun _ => none) ⟨0, 0, 0⟩ dtUnit
    (by decide) (fun c _ => rfl)


/-! ## Claim C5 -/

theorem buildStepOutcome_pushDestroy_eq {bd : BlockData} {bt : BuildTask}
    {current : Cell → Nat} {agentPos : Vec3} {cs : List Cell}
    (h : buildStepOutcome bd bt current agentPos = .pushDestroy cs) :
    cs = (diffCells bd bt current).filter (fun c => decide (current c ≠ 0)) := by
  rcases buildStepOutcome_cases bd bt current agentPos with
    ⟨hf, _⟩ | ⟨cs', hcs, heq, _⟩ | ⟨r, _, _, _, ho⟩
  · rw [h] at hf; simp at hf
  · rw [h] at hcs
    cases hcs
    exact heq
  · rcases ho with ho | ho | ho <;> (rw [h] at ho; simp at ho)

/-- Every cell at which a `Build.step` call removes a block is in the
diff mask. -/
theorem buildStepDigCells_diff (bd : BlockData) (bt : BuildTask)
    (current : Cell → Nat) (agentPos : Vec3) :
    ∀ c ∈ buildStepDigCells bd bt current agentPos,
      diffCell bd bt current c = true := by
  intro c hc
  unfold buildStepDigCells at hc
  cases hout : buildStepOutcome bd bt current agentPos with
  | finish => rw [hout] at hc; simp at hc
  | stepAside => rw [hout] at hc; simp at hc
  | pushMove r => rw [hout] at hc; simp at hc
  | pushDestroy cs =>
    rw [hout] at hc
    simp only [] at hc
    rw [buildStepOutcome_pushDestroy_eq hout] at hc
    exact diffCells_mem_diffCell (List.mem_filter.mp hc).1
  | placeAt r =>
    rw [hout] at hc
    simp only [] at hc
    by_cases hcur : current r ≠ 0
    · rw [if_pos hcur] at hc
      rcases List.mem_singleton.mp hc with hc
      rw [hc]
      exact diffCells_mem_diffCell (buildStepOutcome_placeAt_mem hout)
    · rw [if_neg hcur] at hc
      simp at hc

theorem applyReplaceMap_zero {rm : List (Nat × Nat)} :
    ∀ {g : Cell → Nat} {c : Cell}, (∀ p ∈ rm, p.1 ≠ 0) → g c = 0 →
      applyReplaceMap rm g c = 0 := by
  induction rm with
  | nil =>
    intro g c _ hg
    exact hg
  | cons p rm ih =>
    intro g c h hg
    have hstep : applyReplaceMap (p :: rm) g =
        applyReplaceMap rm (fun c' => if g c' = p.1 then p.2 else g c') := rfl
    rw [hstep]
    refine ih (fun q hq => h q (List.mem_cons_of_mem p hq)) ?_
    rw [hg, if_neg fun he => h p (List.mem_cons_self p rm) he.symm]

theorem blocksListToNpyGrid_ne_zero {bl : List (Vec3 × Nat)} {c : Cell}
    (h : blocksListToNpyGrid bl c ≠ 0) :
    ∃ e ∈ bl, e.1 = (⟨(minCorner (bl.map Prod.fst)).x + c.x,
      (minCorner (bl.map Prod.fst)).y + c.y,
      (minCorner (bl.map Prod.fst)).z + c.z⟩ : Vec3) := by
  unfold blocksListToNpyGrid at h
  rcases hfind : bl.reverse.find? (fun e =>
      decide (e.1.x - (minCorner (bl.map Prod.fst)).x = (c.x : Int) ∧
        e.1.y - (minCorner (bl.map Prod.fst)).y = (c.y : Int) ∧
        e.1.z - (minCorner (bl.map Prod.fst)).z = (c.z : Int))) with _ | e
  · rw [hfind] at h
    simp at h
  · have hmem : e ∈ bl := List.mem_reverse.mp (List.mem_of_find?_eq_some hfind)
    have hpred := List.find?_some hfind
    simp only [decide_eq_true_eq] at hpred
    refine ⟨e, hmem, ?_⟩
    obtain ⟨hx, hy, hz⟩ := hpred
    have : e.1 = ⟨e.1.x, e.1.y, e.1.z⟩ := rfl
    rw [this]
    congr 1 <;> omega

/-- **C5**: the `Build` child pushed by `Fill.step` is configured with
`embed = true`, `Fill` finishes on its single step, and — provided air is
not a key of the block-substitution map — every cell at which that
`Build`'s step removes an existing world block lies in `Fill`'s
coordinate list: with `embed`, the diff mask excludes every cell whose
schematic intends no block, so no world cell outside the listed
coordinates is ever dug or overwritten. -/
theorem fill_embed_never_removes_outside (rm : List (Nat × Nat))
    (groundY : Int) (ft : FillTask) (bd : BlockData) (current : Cell → Nat)
    (agentPos : Vec3) (hrm : ∀ p ∈ rm, p.1 ≠ 0) :
    (fillBuildChild rm groundY ft).embed = true ∧
    (fillStep rm groundY ft).2.finished = true ∧
    ∀ c ∈ buildStepDigCells bd (fillBuildChild rm groundY ft) current agentPos,
      cellTarget (fillBuildChild rm groundY ft) c ∈ ft.schematic := by
  refine ⟨rfl, rfl, fun c hc => ?_⟩
  have hdiff := buildStepDigCells_diff bd (fillBuildChild rm groundY ft)
    current agentPos c hc
  have hsch : (fillBuildChild rm groundY ft).schematic c ≠ 0 :=
    ((diffCell_eq_true_iff _ _ _ _).mp hdiff).2.2.2.1 rfl
  have hgrid : blocksListToNpyGrid (ft.schematic.map fun v => (v, ft.blockIdm)) c ≠ 0 := by
    intro h0
    exact hsch (applyReplaceMap_zero hrm h0)
  obtain ⟨e, he, hcoord⟩ := blocksListToNpyGrid_ne_zero hgrid
  have hmap : ((ft.schematic.map fun v => (v, ft.blockIdm)).map Prod.fst) = ft.schematic := by
    rw [List.map_map]
    have hcomp : (Prod.fst ∘ fun v : Vec3 => (v, ft.blockIdm)) = id := rfl
    rw [hcomp, List.map_id]
  have he1 : e.1 ∈ ft.schematic := by
    have hm : e.1 ∈ (ft.schematic.map fun v => (v, ft.blockIdm)).map Prod.fst :=
      List.mem_map_of_mem Prod.fst he
    rwa [hmap] at hm
  rw [hmap] at hcoord
  have hct : cellTarget (fillBuildChild rm groundY ft) c =
      (⟨(minCorner ft.schematic).x + c.x, (minCorner ft.schematic).y + c.y,
        (minCorner ft.schematic).z + c.z⟩ : Vec3) := rfl
  rw [hct, ← hcoord]
  exact he1

/-- Evaluation of the C5 theorem: a one-coordinate `Fill` with an empty
substitution map. -/
theorem fill_embed_never_removes_outside_witness :
    (fillBuildChild [] 0 ftUnit).embed = true ∧
    (fillStep [] 0 ftUnit).2.finished = true ∧
    ∀ c ∈ buildStepDigCells bdEmpty (fillBuildChild [] 0 ftUnit)
        (fun _ => 0) ⟨0, 0, 0⟩,
      cellTarget (fillBuildChild [] 0 ftUnit) c ∈ ftUnit.schematic :=
  fill_embed_never_removes_outside [] 0 ftUnit bdEmpty (fun _ => 0) ⟨0, 0, 0⟩
    (fun p hp => absurd hp (List.not_mem_nil p))


/-! ## Claim C6 -/

/-- **C6**: when the replace set is empty and the target is within
`approx` Manhattan distance of the agent's position, the first
`Move.step` call sets `finished` and performs no world mutation — no dig,
no block placement, no movement primitive. -/
theorem move_within_approx_finishes (obs : MoveObs) (mt : MoveTask)
    (hrep : mt.replace = [])
    (hdist : manhatDist obs.agentPos mt.target ≤ mt.approx) :
    (moveStep obs mt).1.finished = true ∧ (moveStep obs mt).2 = [] := by
  unfold moveStep
  dsimp only []
  rw [hrep]
  simp only [List.filter_nil, List.map_nil]
  rw [if_pos hdist]
  exact ⟨rfl, rfl⟩

/-- Evaluation of the C6 theorem: agent at the origin, target one block
away, `approx = 1`, empty replace set. -/
theorem move_within_approx_finishes_witness :
    (moveStep moveObsUnit mtUnit).1.finished = true ∧
    (moveStep moveObsUnit mtUnit).2 = [] :=
  move_within_approx_finishes moveObsUnit mtUnit rfl (by decide)


/-! ## Claim C7 -/

/-- **C7 (counterexample)**: for a 1×1×1 `Dig` at `(0, 10, 0)` over an
all-passable world, the top layer is passable, yet the cell list handed
to the `Destroy` child is the two-cell column `[(0,9,0), (0,10,0)]` —
`Dig.step` lowers only the bottom bound (`my -= 1`), keeping the top —
and not the one-cell volume shifted down that the claim describes. -/
theorem dig_shift_counterexample :
    digTopPassable (fun _ => true) dgUnit = true ∧
    digStepCells (fun _ => true) dgUnit = [⟨0, 9, 0⟩, ⟨0, 10, 0⟩] ∧
    digVolumeShifted dgUnit = [⟨0, 9, 0⟩] ∧
    digStepCells (fun _ => true) dgUnit ≠ digVolumeShifted dgUnit := by
  decide

/-- **C7 (amended)**: when the topmost layer of the computed volume is
entirely passable, the cell list handed to the `Destroy` child is the
volume extended one layer deeper — the same box with its bottom bound
lowered by one and the top kept, growing the cell count by width×length —
otherwise exactly the original volume; in either case `Dig.step` pushes
one `Destroy` child (with the dig message) over that cell list and
finishes on its first step. -/
theorem dig_step_cells_extended (passable : Vec3 → Bool) (typeAt : Vec3 → Nat)
    (dg : DigTask) :
    digStepCells passable dg =
      (if digTopPassable passable dg then digVolumeExtended dg
        else digVolume dg) ∧
    (digStep passable typeAt dg).1.xyzRemaining = digStepCells passable dg ∧
    (digStep passable typeAt dg).1.schematic =
      (digStepCells passable dg).map (fun v => (v, typeAt v)) ∧
    (digStep passable typeAt dg).1.digMessage = true ∧
    (digStep passable typeAt dg).2.finished = true := by
  refine ⟨?_, rfl, rfl, rfl, rfl⟩
  unfold digStepCells digVolumeExtended digVolume
  dsimp only []
  by_cases h : digTopPassable passable dg = true
  · rw [if_pos h, if_pos h]
  · rw [if_neg h, if_neg h]


/-! ## Claim C8 -/

/-- **C8**: for every task whose `finished` flag is true and whose
`block_memory` back-reference is set, `check_finished` returns true and,
as a side effect, stamps `block_memory.end_time = self.end_time` on the
attached memory record. -/
theorem check_finished_stamps_end_time (t : TaskCore) (m : MemRec)
    (hf : t.finished = true) (hm : t.blockMemory = some m) :
    (checkFinished t).1 = true ∧
    (checkFinished t).2.blockMemory = some { m with endTime := some t.endTime } := by
  unfold checkFinished
  rw [hm, if_pos hf]
  exact ⟨hf, rfl⟩

/-- Evaluation of the C8 theorem: a finished task with end time 42. -/
theorem check_finished_stamps_end_time_witness :
    (checkFinished tcUnit).1 = true ∧
    (checkFinished tcUnit).2.blockMemory = some ⟨some 42⟩ :=
  check_finished_stamps_end_time tcUnit ⟨none⟩ rfl rfl


/-! ## Claim C9 -/

/-- **C9 (counterexample)**: `Loop.step` does not clear the advisory
flag: an interrupted `Loop`, stepped once with a false stop condition,
still has `interrupted = true` — refuting that after any `step` call on
any task variant the flag is false. -/
theorem interrupt_cleared_counterexample :
    (loopStep false 0 (loopInterrupt ⟨false, false⟩)).1.interrupted = true := by
  decide

theorem moveAlongPath_interrupted (p0 : Vec3) (p : List Vec3) (mt : MoveTask) :
    (moveAlongPath p0 p mt).1.interrupted = mt.interrupted := by
  unfold moveAlongPath
  dsimp only []
  cases p.dropLast.getLast? <;> rfl

theorem handleNoPath_interrupted (obs : MoveObs) (mt : MoveTask) :
    (handleNoPath obs mt).1.interrupted = mt.interrupted := by
  unfold handleNoPath
  cases STEP_DIRS.find? (fun v => decide (0 < dot3 (mt.target.sub obs.agentPos) v)) <;> rfl

theorem moveStep_interrupted (obs : MoveObs) (mt : MoveTask) :
    (moveStep obs mt).1.interrupted = false := by
  unfold moveStep
  dsimp only []
  split
  · rfl
  · split
    · rw [moveAlongPath_interrupted]
    · split
      · rw [handleNoPath_interrupted]
      · rw [moveAlongPath_interrupted]

theorem buildStep_interrupted (bd : BlockData) (bt : BuildTask) (obs : BuildObs) :
    (buildStep bd bt obs).interrupted = false := by
  unfold buildStep
  cases buildStepOutcome bd bt obs.current obs.agentPos with
  | placeAt c =>
    dsimp only []
    split_ifs <;> rfl
  | finish => rfl
  | pushDestroy cs => rfl
  | stepAside => rfl
  | pushMove c => rfl

theorem destroyStep_interrupted (astar : Vec3 → Option (List Vec3))
    (p : Vec3) (dt : DestroyTask) :
    (destroyStep astar p dt).2.interrupted = false := by
  unfold destroyStep
  dsimp only []
  split
  · rfl
  · split
    · rfl
    · split <;> rfl

/-- **C9 (amended)**: `interrupt()` sets the advisory flag to true with
no other effect on every variant; the flag is cleared at the start of the
task's own next `step` only for the variants whose step body begins with
`self.interrupted = False` — Dance, Move, Build, Destroy — so after their
step it is false; the step bodies of Fill, Spawn, Dig, Undo and Loop
never assign the flag, so after them it keeps its prior value. -/
theorem interrupt_flag_behaviour :
    (∀ mt : MoveTask, moveInterrupt mt = { mt with interrupted := true }) ∧
    (∀ dt : DestroyTask, destroyInterrupt dt = { dt with interrupted := true }) ∧
    (∀ bt : BuildTask, buildInterrupt bt = { bt with interrupted := true }) ∧
    (∀ ft : FillTask, fillInterrupt ft = { ft with interrupted := true }) ∧
    (∀ dg : DigTask, digInterrupt dg = { dg with interrupted := true }) ∧
    (∀ lt : LoopTask, loopInterrupt lt = { lt with interrupted := true }) ∧
    (∀ m i f, (danceStepFlags m i f).1 = false) ∧
    (∀ obs mt, (moveStep obs mt).1.interrupted = false) ∧
    (∀ bd bt obs, (buildStep bd bt obs).interrupted = false) ∧
    (∀ astar p dt, (destroyStep astar p dt).2.interrupted = false) ∧
    (∀ rm gy ft, ((fillStep rm gy ft).2).interrupted = ft.interrupted) ∧
    (∀ w i f, (spawnStepFlags w i f).1 = i) ∧
    (∀ pass ty dg, ((digStep pass ty dg).2).interrupted = dg.interrupted) ∧
    (∀ i, (undoTaskStepFlags i).1 = i) ∧
    (∀ sc n lt, ((loopStep sc n lt).1).interrupted = lt.interrupted) := by
  refine ⟨fun _ => rfl, fun _ => rfl, fun _ => rfl, fun _ => rfl, fun _ => rfl,
    fun _ => rfl, fun _ _ _ => rfl, moveStep_interrupted, buildStep_interrupted,
    destroyStep_interrupted, fun _ _ _ => rfl, fun _ _ _ => rfl,
    fun _ _ _ => rfl, fun _ => rfl, ?_⟩
  intro sc n lt
  unfold loopStep
  split <;> rfl


/-! ## Claim C10 -/

theorem buildStep_oldBlocksList_isSome (bd : BlockData) (bt : BuildTask)
    (obs : BuildObs) : (buildStep bd bt obs).oldBlocksList ≠ none := by
  unfold buildStep
  cases buildStepOutcome bd bt obs.current obs.agentPos with
  | placeAt c =>
    dsimp only []
    split_ifs <;> simp
  | finish => simp
  | pushDestroy cs => simp
  | stepAside => simp
  | pushMove c => simp

theorem buildSteps_oldBlocksList_isSome (bd : BlockData) (bt : BuildTask)
    (obs : BuildObs) (obss : List BuildObs) :
    (buildSteps bd (buildStep bd bt obs) obss).oldBlocksList ≠ none := by
  induction obss generalizing bt obs with
  | nil => exact buildStep_oldBlocksList_isSome bd bt obs
  | cons o os ih => exact ih (buildStep bd bt obs) o

/-- **C10**: before the first step the undo snapshot `old_blocks_list` is
`None` and `Build.undo`'s evaluation fails (`len(None)`); every stepped
`Build` has the snapshot set, and with the snapshot set `undo` never
fails and pushes at most two children — a forced `Build` of the
pre-operation snapshot and a `Destroy` of the newly placed blocks, each
pushed exactly when its list is non-empty. -/
theorem build_undo_safety (bd : BlockData) :
    (∀ bt : BuildTask, bt.oldBlocksList = none → buildUndo bt = none) ∧
    (∀ bt obs obss,
      (buildSteps bd (buildStep bd bt obs) obss).oldBlocksList ≠ none) ∧
    (∀ (bt : BuildTask) (l : List (Vec3 × Nat)), bt.oldBlocksList = some l →
      ∃ cs, buildUndo bt = some cs ∧ cs.length ≤ 2 ∧
        ((∃ o, UndoChild.buildOld l o ∈ cs) ↔ l ≠ []) ∧
        (UndoChild.destroyNew bt.newBlocks ∈ cs ↔ bt.newBlocks ≠ [])) := by
  refine ⟨?_, fun bt obs obss => buildSteps_oldBlocksList_isSome bd bt obs obss, ?_⟩
  · intro bt h
    unfold buildUndo
    rw [h]
  · intro bt l h
    unfold buildUndo
    rw [h]
    refine ⟨_, rfl, ?_⟩
    by_cases h1 : l = [] <;> by_cases h2 : bt.newBlocks = [] <;>
      simp [h1, h2, List.length_pos]

/-- Evaluation of the C10 theorem: a fresh `Build` has no snapshot and
`undo` fails; a stepped `Build` carrying a one-block snapshot and one new
block pushes both children. -/
theorem build_undo_safety_witness :
    buildUndo btUnit = none ∧
    (buildSteps bdEmpty (buildStep bdEmpty btUnit obsAir) []).oldBlocksList ≠ none ∧
    ∃ cs, buildUndo btStepped = some cs ∧ cs.length ≤ 2 ∧
      ((∃ o, UndoChild.buildOld [(⟨0, 64, 0⟩, 5)] o ∈ cs) ↔
        ([((⟨0, 64, 0⟩ : Vec3), 5)] : List (Vec3 × Nat)) ≠ []) ∧
      (UndoChild.destroyNew btStepped.newBlocks ∈ cs ↔
        btStepped.newBlocks ≠ []) :=
  ⟨(build_undo_safety bdEmpty).1 btUnit rfl,
    (build_undo_safety bdEmpty).2.1 btUnit obsAir [],
    (build_undo_safety bdEmpty).2.2 btStepped [(⟨0, 64, 0⟩, 5)] rfl⟩

end Craftassist
